import Mathlib

/-!
Verification of the Plan/Goal caching and consistency layer of the
Coach-Peter fitness backend (`coach_peter/models/plan_model.py`).

The `PlanModel` class owns an ordered sequence of goal identifiers
(`self.plan : List[int]`) and a read-through cache
(`self._goal_cache : dict[int, Goals]`).  Python exceptions are modelled
with `Except`; since a raised exception in Python leaves any state
mutation already performed in place, every operation returns both its
`Except` result and the successor state.  The backing Goal Catalog
(`Goals.get_goal_by_id`) is modelled as a function `Nat → Option Goals`.
-/

namespace CoachPeter

/-- Modelled from the spec: the Goal record (spec §3).  The `Goals` model
matching the spec and the test-suite (fields `target`, `goal_value`,
`goal_progress`, `completed`, `progress_notes`) is not present under the
source tree (the checked-in `goal_model.py` is a stale variant with
different fields), so the record is taken from spec §3.  Numeric fields
are modelled as integers; no claim computes with them. -/
structure Goals where
  id : Nat
  target : String
  goal_value : Int
  goal_progress : Int
  completed : Bool
  progress_notes : List String
deriving DecidableEq

/-- The Goal Catalog (external collaborator, spec §6): addressable by
integer identifier, `none` is the "not found" condition of
`Goals.get_goal_by_id`. -/
def Catalog : Type := Nat → Option Goals

/-- A catalog is well-formed when a goal fetched by id carries that id —
true of the source, where `Goals.get_goal_by_id` is a primary-key
lookup. -/
def Catalog.WF (cat : Catalog) : Prop :=
  ∀ i g, cat i = some g → g.id = i

/-- The error taxonomy of spec §7; each constructor corresponds to one
distinct `ValueError` message raised by `plan_model.py`. -/
inductive PlanErr where
  /-- "Invalid goal id: {goal_id}" -/
  | invalidId
  /-- "Goal with id {goal_id} not found in plan" -/
  | notInPlan
  /-- "Goal with ID {goal_id} already exists in the plan" -/
  | duplicateEntry
  /-- "Goal ID {goal_id} not found in database" -/
  | notFound
  /-- "Plan is empty" -/
  | emptyPlan
deriving DecidableEq

/-- An argument passed for a goal id: the Python code accepts any value
and coerces it with `int(...)`; we model the two representations the
spec and tests exercise (integers and strings). -/
inductive GoalIdInput where
  | intVal (n : Int)
  | strVal (s : String)
deriving DecidableEq

/-- One decimal digit of a numeral character, `none` otherwise. -/
def charDigit (c : Char) : Option Nat :=
  if c.isDigit then some (c.toNat - 48) else none

/-- Accumulating left-to-right decimal evaluation of a character list;
fails on the first non-digit. -/
def digitsToNat (acc : Nat) : List Char → Option Nat
  | [] => some acc
  | c :: cs =>
    match charDigit c with
    | none => none
    | some d => digitsToNat (acc * 10 + d) cs

/-- A non-empty all-digit character list as a natural number. -/
def parseNatChars (cs : List Char) : Option Nat :=
  match cs with
  | [] => none
  | _ => digitsToNat 0 cs

/-- Python `int(s)` on a string: strip surrounding whitespace, then an
optionally signed decimal numeral; `ValueError` (here `none`)
otherwise. -/
def pyInt (s : String) : Option Int :=
  let cs := s.data.dropWhile (fun c => c.isWhitespace)
  let cs := (cs.reverse.dropWhile (fun c => c.isWhitespace)).reverse
  match cs with
  | '-' :: rest => (parseNatChars rest).map (fun n => -(n : Int))
  | '+' :: rest => (parseNatChars rest).map (fun n => (n : Int))
  | rest => (parseNatChars rest).map (fun n => (n : Int))

/-- Python `int(x)` coercion on the modelled inputs: an integer is
returned as-is, a string is parsed as an optionally signed decimal
numeral (surrounding whitespace tolerated), anything else fails. -/
def GoalIdInput.toIntCoe : GoalIdInput → Option Int
  | .intVal n => some n
  | .strVal s => pyInt s

/-- The state of one `PlanModel` instance: the ordered plan of goal ids
and the goal cache (`dict[int, Goals]`, modelled as an association
list). -/
structure PlanModel where
  plan : List Nat
  cache : List (Nat × Goals)
deriving DecidableEq

/-- Mirrors `PlanModel.__init__`: empty plan and empty cache. -/
def PlanModel.init : PlanModel :=
  { plan := [], cache := [] }

/-- Mirrors `PlanModel._get_goal_from_cache_or_db`: return the cached goal on a
hit; otherwise query the catalog, store the result in the cache, and
return it; raise (not found) if the catalog has no such goal, caching
nothing. -/
def PlanModel.get_goal_from_cache_or_db (st : PlanModel) (cat : Catalog)
    (goal_id : Nat) : Except PlanErr Goals × PlanModel :=
  match st.cache.lookup goal_id with
  | some g => (.ok g, st)
  | none =>
    match cat goal_id with
    | some g => (.ok g, { st with cache := (goal_id, g) :: st.cache })
    | none => (.error .notFound, st)

/-- Mirrors `PlanModel.validate_goal_id`: coerce to an integer (invalid-id error
if not coercible or negative), then — only when `check_in_plan` — check
plan membership (not-in-plan error), then always attempt a
cache-or-catalog resolution (any failure is wrapped as a not-found
error); return the coerced id. -/
def PlanModel.validate_goal_id (st : PlanModel) (cat : Catalog)
    (goal_id : GoalIdInput) (check_in_plan : Bool) :
    Except PlanErr Nat × PlanModel :=
  match goal_id.toIntCoe with
  | none => (.error .invalidId, st)
  | some n =>
    if n < 0 then (.error .invalidId, st)
    else
      let gid := n.toNat
      if check_in_plan ∧ gid ∉ st.plan then (.error .notInPlan, st)
      else
        match st.get_goal_from_cache_or_db cat gid with
        | (.ok _, st1) => (.ok gid, st1)
        | (.error _, st1) => (.error .notFound, st1)

/-- Mirrors `PlanModel.check_if_empty`: raise the empty-plan error iff the plan
is empty (pure check, no state change). -/
def PlanModel.check_if_empty (st : PlanModel) : Except PlanErr Unit :=
  if st.plan.isEmpty then .error .emptyPlan else .ok ()

/-- Mirrors `PlanModel.add_goal_to_plan`: validate with `check_in_plan=False`,
raise the duplicate error if the id is already in the plan, resolve the
goal (cache-or-catalog), and append the id of the resolved goal. -/
def PlanModel.add_goal_to_plan (st : PlanModel) (cat : Catalog)
    (goal_id : GoalIdInput) : Except PlanErr Unit × PlanModel :=
  match st.validate_goal_id cat goal_id false with
  | (.error e, st1) => (.error e, st1)
  | (.ok gid, st1) =>
    if gid ∈ st1.plan then (.error .duplicateEntry, st1)
    else
      match st1.get_goal_from_cache_or_db cat gid with
      | (.error e, st2) => (.error e, st2)
      | (.ok g, st2) => (.ok (), { st2 with plan := st2.plan ++ [g.id] })

/-- Mirrors `PlanModel.remove_goal_by_goal_id`: raise on an empty plan, validate
with `check_in_plan=True`, then remove the first occurrence of the id
from the plan (`list.remove`). -/
def PlanModel.remove_goal_by_goal_id (st : PlanModel) (cat : Catalog)
    (goal_id : GoalIdInput) : Except PlanErr Unit × PlanModel :=
  match st.check_if_empty with
  | .error e => (.error e, st)
  | .ok () =>
    match st.validate_goal_id cat goal_id true with
    | (.error e, st1) => (.error e, st1)
    | (.ok gid, st1) =>
      if gid ∉ st1.plan then (.error .notInPlan, st1)
      else (.ok (), { st1 with plan := st1.plan.erase gid })

/-- Mirrors `PlanModel.clear_plan`: swallow the exception of the empty-plan check
(logged only) and empty the plan; the cache is untouched. -/
def PlanModel.clear_plan (st : PlanModel) : Except PlanErr Unit × PlanModel :=
  (.ok (), { st with plan := [] })

/-- Sequential resolution of a list of ids, as performed by the list
comprehension in `get_all_goals`: each id is resolved in order, cache
updates accumulate, the first failure aborts (leaving the cache updates
already made in place). -/
def resolve_list (cat : Catalog) :
    PlanModel → List Nat → Except PlanErr (List Goals) × PlanModel
  | st, [] => (.ok [], st)
  | st, gid :: rest =>
    match st.get_goal_from_cache_or_db cat gid with
    | (.error e, st1) => (.error e, st1)
    | (.ok g, st1) =>
      match resolve_list cat st1 rest with
      | (.error e, st2) => (.error e, st2)
      | (.ok gs, st2) => (.ok (g :: gs), st2)

/-- Mirrors `PlanModel.get_all_goals`: raise on an empty plan, then resolve every
id in the plan in order. -/
def PlanModel.get_all_goals (st : PlanModel) (cat : Catalog) :
    Except PlanErr (List Goals) × PlanModel :=
  match st.check_if_empty with
  | .error e => (.error e, st)
  | .ok () => resolve_list cat st st.plan

/-- Mirrors `PlanModel.get_goal_by_goal_id`: raise on an empty plan, validate
with `check_in_plan=True`, then resolve the goal. -/
def PlanModel.get_goal_by_goal_id (st : PlanModel) (cat : Catalog)
    (goal_id : GoalIdInput) : Except PlanErr Goals × PlanModel :=
  match st.check_if_empty with
  | .error e => (.error e, st)
  | .ok () =>
    match st.validate_goal_id cat goal_id true with
    | (.error e, st1) => (.error e, st1)
    | (.ok gid, st1) => st1.get_goal_from_cache_or_db cat gid

/-- Mirrors `PlanModel.get_plan_length`: the number of ids in the plan; no
failure mode. -/
def PlanModel.get_plan_length (st : PlanModel) : Nat :=
  st.plan.length

/-- Rounding to 3 decimal digits, as exact rational arithmetic. -/
def roundTo3 (q : ℚ) : ℚ :=
  ((round (q * 1000) : ℤ) : ℚ) / 1000

/-- Modelled from the spec: `getPlanProgress` (spec §4.1).  The method
`get_plan_progress` is absent from the checked-in `plan_model.py` (only
its test exists), so it is modelled from the words of the spec: fail with the
empty-plan error if the plan is empty; fetch every goal in the plan
(cache-or-catalog) and count those with `completed = true`; return
`completedCount / totalCount` rounded to 3 decimal digits, a fraction
in [0,1]. -/
def PlanModel.get_plan_progress (st : PlanModel) (cat : Catalog) :
    Except PlanErr ℚ × PlanModel :=
  match st.check_if_empty with
  | .error e => (.error e, st)
  | .ok () =>
    match resolve_list cat st st.plan with
    | (.error e, st1) => (.error e, st1)
    | (.ok gs, st1) =>
      (.ok (roundTo3 (((gs.filter fun g => g.completed).length : ℚ) /
        (gs.length : ℚ))), st1)

/-- Every cached entry carries the id it is keyed by — true of every
cache the implementation ever builds, since entries come from primary-key
catalog fetches. -/
def PlanModel.CacheWF (st : PlanModel) : Prop :=
  ∀ k g, st.cache.lookup k = some g → g.id = k

/-- Every identifier in the plan has a cache entry: `add_goal_to_plan`
resolves (and thereby caches) an id before appending it. -/
def PlanModel.Covers (st : PlanModel) : Prop :=
  ∀ k, k ∈ st.plan → ∃ g, st.cache.lookup k = some g

/-- The state invariant of the Plan Manager: a duplicate-free plan whose ids
are all cached, with a well-keyed cache. -/
def PlanModel.Inv (st : PlanModel) : Prop :=
  st.plan.Nodup ∧ st.Covers ∧ st.CacheWF

/-- The Plan Manager operations (spec §4.1) as a datatype; each
carries the catalog in effect when it is invoked, so the backing store
may change arbitrarily between calls. -/
inductive Op where
  | addGoal (cat : Catalog) (i : GoalIdInput)
  | removeGoal (cat : Catalog) (i : GoalIdInput)
  | clearPlan
  | getAllGoals (cat : Catalog)
  | getGoalById (cat : Catalog) (i : GoalIdInput)
  | getPlanProgress (cat : Catalog)
  | validateGoalId (cat : Catalog) (i : GoalIdInput) (b : Bool)

/-- An operation is well-formed when the catalog it runs against is. -/
def Op.WF : Op → Prop
  | .addGoal cat _ => cat.WF
  | .removeGoal cat _ => cat.WF
  | .clearPlan => True
  | .getAllGoals cat => cat.WF
  | .getGoalById cat _ => cat.WF
  | .getPlanProgress cat => cat.WF
  | .validateGoalId cat _ _ => cat.WF

/-- The state reached after one operation (results discarded; a raised
exception still leaves its earlier cache updates in place, exactly as in
the Python methods). -/
def applyOp (st : PlanModel) : Op → PlanModel
  | .addGoal cat i => (st.add_goal_to_plan cat i).2
  | .removeGoal cat i => (st.remove_goal_by_goal_id cat i).2
  | .clearPlan => st.clear_plan.2
  | .getAllGoals cat => (st.get_all_goals cat).2
  | .getGoalById cat i => (st.get_goal_by_goal_id cat i).2
  | .getPlanProgress cat => (st.get_plan_progress cat).2
  | .validateGoalId cat i b => (st.validate_goal_id cat i b).2

/-- The state reached after a sequence of operations. -/
def runOps : PlanModel → List Op → PlanModel
  | st, [] => st
  | st, op :: ops => runOps (applyOp st op) ops

/-- The "biceps" goal of the test fixtures (`completed = false`). -/
def g1 : Goals :=
  { id := 1, target := "biceps", goal_value := 40, goal_progress := 35,
    completed := false, progress_notes := [] }

/-- The "pectorals" goal of the test fixtures (`completed = true`). -/
def g2 : Goals :=
  { id := 2, target := "pectorals", goal_value := 200, goal_progress := 225,
    completed := true, progress_notes := [] }

/-- A concrete catalog holding exactly goals 1 and 2. -/
def cat0 : Catalog :=
  fun n => if n = 1 then some g1 else if n = 2 then some g2 else none

/-- A concrete catalog holding only goal 1 (no goal 2 — spec Scenario D). -/
def catD : Catalog :=
  fun n => if n = 1 then some g1 else none

/-- A concrete state whose plan is `[1, 2]` with both goals cached. -/
def st12 : PlanModel :=
  { plan := [1, 2], cache := [(1, g1), (2, g2)] }

/-- A concrete state whose plan is `[1]` with an empty cache. -/
def st1 : PlanModel :=
  { plan := [1], cache := [] }

deriving instance DecidableEq for Except

/-! ### Helper lemmas about the cache association list -/

theorem lookup_cons_self (k : Nat) (g : Goals) (c : List (Nat × Goals)) :
    ((k, g) :: c).lookup k = some g := by
  simp [List.lookup]

theorem lookup_cons_preserve {c : List (Nat × Goals)} {k k1 : Nat} {g g1 : Goals}
    (hk : c.lookup k = some g) (hmiss : c.lookup k1 = none) :
    ((k1, g1) :: c).lookup k = some g := by
  have hne : (k == k1) = false := by
    refine beq_eq_false_iff_ne.mpr ?_
    intro h
    rw [h, hmiss] at hk
    cases hk
  simp [List.lookup, hne, hk]

/-! ### Helper lemmas about `get_goal_from_cache_or_db` -/

theorem resolve_hit (st : PlanModel) (cat : Catalog) (gid : Nat) (g : Goals)
    (h : st.cache.lookup gid = some g) :
    st.get_goal_from_cache_or_db cat gid = (.ok g, st) := by
  simp [PlanModel.get_goal_from_cache_or_db, h]

theorem resolve_plan_eq (st : PlanModel) (cat : Catalog) (gid : Nat) :
    (st.get_goal_from_cache_or_db cat gid).2.plan = st.plan := by
  unfold PlanModel.get_goal_from_cache_or_db
  rcases hc : st.cache.lookup gid with _ | g
  · rcases hd : cat gid with _ | g <;> simp [hc, hd]
  · simp [hc]

theorem resolve_cache_mono (st : PlanModel) (cat : Catalog) (gid : Nat)
    {k : Nat} {g : Goals} (h : st.cache.lookup k = some g) :
    (st.get_goal_from_cache_or_db cat gid).2.cache.lookup k = some g := by
  unfold PlanModel.get_goal_from_cache_or_db
  rcases hc : st.cache.lookup gid with _ | g1
  · rcases hd : cat gid with _ | g1
    · simpa [hc, hd] using h
    · simpa [hc, hd] using lookup_cons_preserve h hc
  · simpa [hc] using h

theorem resolve_cacheWF (st : PlanModel) (cat : Catalog) (gid : Nat)
    (hcat : cat.WF) (hst : st.CacheWF) :
    (st.get_goal_from_cache_or_db cat gid).2.CacheWF := by
  unfold PlanModel.get_goal_from_cache_or_db
  rcases hc : st.cache.lookup gid with _ | g1
  · rcases hd : cat gid with _ | g1
    · simpa [hc, hd] using hst
    · simp only [hc, hd]
      intro k g hkg
      rcases eq_or_ne k gid with rfl | hne
      · rw [lookup_cons_self] at hkg
        cases hkg
        exact hcat _ _ hd
      · have : (k == gid) = false := beq_eq_false_iff_ne.mpr hne
        simp only [List.lookup, this] at hkg
        exact hst _ _ hkg
  · simpa [hc] using hst

theorem resolve_ok_cached (st st1 : PlanModel) (cat : Catalog) (gid : Nat) (g : Goals)
    (h : st.get_goal_from_cache_or_db cat gid = (.ok g, st1)) :
    st1.cache.lookup gid = some g := by
  unfold PlanModel.get_goal_from_cache_or_db at h
  rcases hc : st.cache.lookup gid with _ | g1
  · rcases hd : cat gid with _ | g1
    · simp [hc, hd] at h
    · simp only [hc, hd, Prod.mk.injEq] at h
      obtain ⟨h1, h2⟩ := h
      injection h1 with h1
      subst h1 h2
      exact lookup_cons_self ..
  · simp only [hc, Prod.mk.injEq] at h
    obtain ⟨h1, h2⟩ := h
    injection h1 with h1
    subst h1 h2
    exact hc

/-! ### Helper lemmas about `validate_goal_id` -/

theorem validate_plan_eq (st : PlanModel) (cat : Catalog) (i : GoalIdInput) (b : Bool) :
    (st.validate_goal_id cat i b).2.plan = st.plan := by
  unfold PlanModel.validate_goal_id
  rcases hi : i.toIntCoe with _ | n
  · simp
  · simp only []
    split
    · simp
    · split
      · simp
      · rcases hr : st.get_goal_from_cache_or_db cat n.toNat with ⟨res, st1⟩
        have hp : st1.plan = st.plan := by
          have := resolve_plan_eq st cat n.toNat
          rw [hr] at this
          exact this
        cases res <;> simpa [hr] using hp

theorem validate_cache_mono (st : PlanModel) (cat : Catalog) (i : GoalIdInput) (b : Bool)
    {k : Nat} {g : Goals} (h : st.cache.lookup k = some g) :
    (st.validate_goal_id cat i b).2.cache.lookup k = some g := by
  unfold PlanModel.validate_goal_id
  rcases hi : i.toIntCoe with _ | n
  · simpa using h
  · simp only []
    split
    · simpa using h
    · split
      · simpa using h
      · rcases hr : st.get_goal_from_cache_or_db cat n.toNat with ⟨res, st1⟩
        have hm : st1.cache.lookup k = some g := by
          have := resolve_cache_mono st cat n.toNat h
          rw [hr] at this
          exact this
        cases res <;> simpa [hr] using hm

theorem validate_cacheWF (st : PlanModel) (cat : Catalog) (i : GoalIdInput) (b : Bool)
    (hcat : cat.WF) (hst : st.CacheWF) :
    (st.validate_goal_id cat i b).2.CacheWF := by
  unfold PlanModel.validate_goal_id
  rcases hi : i.toIntCoe with _ | n
  · simpa using hst
  · simp only []
    split
    · simpa using hst
    · split
      · simpa using hst
      · rcases hr : st.get_goal_from_cache_or_db cat n.toNat with ⟨res, st1⟩
        have hw : st1.CacheWF := by
          have := resolve_cacheWF st cat n.toNat hcat hst
          rw [hr] at this
          exact this
        cases res <;> simpa [hr] using hw

theorem validate_ok_spec (st st1 : PlanModel) (cat : Catalog) (i : GoalIdInput) (b : Bool)
    (gid : Nat) (h : st.validate_goal_id cat i b = (.ok gid, st1)) :
    (∃ n : Int, i.toIntCoe = some n ∧ 0 ≤ n ∧ n.toNat = gid) ∧
    (b = true → gid ∈ st.plan) ∧
    st1.plan = st.plan ∧
    (∃ g, st1.cache.lookup gid = some g) := by
  unfold PlanModel.validate_goal_id at h
  rcases hi : i.toIntCoe with _ | n
  · simp [hi] at h
  · simp only [hi] at h
    split at h
    · simp at h
    · split at h
      · simp at h
      · rename_i hneg hmem
        rcases hr : st.get_goal_from_cache_or_db cat n.toNat with ⟨res, st2⟩
        rw [hr] at h
        cases res with
        | error e => simp at h
        | ok g =>
          simp only [Prod.mk.injEq] at h
          obtain ⟨h1, h2⟩ := h
          injection h1 with h1
          subst h1 h2
          refine ⟨⟨n, rfl, not_lt.mp hneg, rfl⟩, ?_, ?_, ?_⟩
          · intro hb
            by_contra hni
            exact hmem ⟨hb, hni⟩
          · have := resolve_plan_eq st cat n.toNat
            rw [hr] at this
            exact this
          · exact ⟨g, resolve_ok_cached st st2 cat n.toNat g hr⟩

/-! ### Helper lemmas about `resolve_list` -/

theorem resolve_list_plan_eq (cat : Catalog) (st : PlanModel) (ids : List Nat) :
    (resolve_list cat st ids).2.plan = st.plan := by
  induction ids generalizing st with
  | nil => simp [resolve_list]
  | cons gid rest ih =>
    unfold resolve_list
    rcases hr : st.get_goal_from_cache_or_db cat gid with ⟨res, st1⟩
    have hp : st1.plan = st.plan := by
      have := resolve_plan_eq st cat gid
      rw [hr] at this
      exact this
    cases res with
    | error e => simpa [hr] using hp
    | ok g =>
      rcases hl : resolve_list cat st1 rest with ⟨res2, st2⟩
      have hp2 : st2.plan = st1.plan := by
        have := ih st1
        rw [hl] at this
        exact this
      cases res2 <;> simp [hr, hl, hp2, hp]

theorem resolve_list_cache_mono (cat : Catalog) (st : PlanModel) (ids : List Nat)
    {k : Nat} {g : Goals} (h : st.cache.lookup k = some g) :
    (resolve_list cat st ids).2.cache.lookup k = some g := by
  induction ids generalizing st with
  | nil => simpa [resolve_list] using h
  | cons gid rest ih =>
    unfold resolve_list
    rcases hr : st.get_goal_from_cache_or_db cat gid with ⟨res, st1⟩
    have hm : st1.cache.lookup k = some g := by
      have := resolve_cache_mono st cat gid h
      rw [hr] at this
      exact this
    cases res with
    | error e => simpa [hr] using hm
    | ok g1 =>
      rcases hl : resolve_list cat st1 rest with ⟨res2, st2⟩
      have hm2 : st2.cache.lookup k = some g := by
        have := ih st1 hm
        rw [hl] at this
        exact this
      cases res2 <;> simp [hr, hl, hm2]

theorem resolve_list_cacheWF (cat : Catalog) (st : PlanModel) (ids : List Nat)
    (hcat : cat.WF) (hst : st.CacheWF) :
    (resolve_list cat st ids).2.CacheWF := by
  induction ids generalizing st with
  | nil => simpa [resolve_list] using hst
  | cons gid rest ih =>
    unfold resolve_list
    rcases hr : st.get_goal_from_cache_or_db cat gid with ⟨res, st1⟩
    have hw : st1.CacheWF := by
      have := resolve_cacheWF st cat gid hcat hst
      rw [hr] at this
      exact this
    cases res with
    | error e => simpa [hr] using hw
    | ok g1 =>
      rcases hl : resolve_list cat st1 rest with ⟨res2, st2⟩
      have hw2 : st2.CacheWF := by
        have := ih st1 hw
        rw [hl] at this
        exact this
      cases res2 <;> simp [hr, hl, hw2]

theorem resolve_list_ok_length (cat : Catalog) (st st1 : PlanModel) (ids : List Nat)
    (gs : List Goals) (h : resolve_list cat st ids = (.ok gs, st1)) :
    gs.length = ids.length := by
  induction ids generalizing st gs st1 with
  | nil =>
    simp only [resolve_list, Prod.mk.injEq] at h
    obtain ⟨h1, _⟩ := h
    injection h1 with h1
    subst h1
    rfl
  | cons gid rest ih =>
    unfold resolve_list at h
    rcases hr : st.get_goal_from_cache_or_db cat gid with ⟨res, stx⟩
    simp only [hr] at h
    cases res with
    | error e => simp at h
    | ok g =>
      rcases hl : resolve_list cat stx rest with ⟨res2, sty⟩
      simp only [hl] at h
      cases res2 with
      | error e => simp at h
      | ok gs2 =>
        simp only [Prod.mk.injEq] at h
        obtain ⟨h1, _⟩ := h
        injection h1 with h1
        subst h1
        simpa using ih stx sty gs2 hl

/-! ### Invariant preservation -/

theorem inv_of_steps {st st1 : PlanModel}
    (hp : st1.plan = st.plan)
    (hm : ∀ k g, st.cache.lookup k = some g → st1.cache.lookup k = some g)
    (hw : st1.CacheWF) (hinv : st.Inv) : st1.Inv := by
  obtain ⟨hnd, hcov, _⟩ := hinv
  refine ⟨hp ▸ hnd, ?_, hw⟩
  intro k hk
  obtain ⟨g, hg⟩ := hcov k (hp ▸ hk)
  exact ⟨g, hm k g hg⟩

theorem add_cache_mono (st : PlanModel) (cat : Catalog) (i : GoalIdInput)
    {k : Nat} {g : Goals} (h : st.cache.lookup k = some g) :
    (st.add_goal_to_plan cat i).2.cache.lookup k = some g := by
  unfold PlanModel.add_goal_to_plan
  rcases hv : st.validate_goal_id cat i false with ⟨res, st1⟩
  have hm : st1.cache.lookup k = some g := by
    have := validate_cache_mono st cat i false h
    rw [hv] at this
    exact this
  cases res with
  | error e => simpa using hm
  | ok gid =>
    simp only []
    split
    · exact hm
    · rcases hr : st1.get_goal_from_cache_or_db cat gid with ⟨res2, st2⟩
      have hm2 : st2.cache.lookup k = some g := by
        have := resolve_cache_mono st1 cat gid hm
        rw [hr] at this
        exact this
      cases res2 <;> simpa using hm2

theorem add_inv (st : PlanModel) (cat : Catalog) (i : GoalIdInput)
    (hcat : cat.WF) (hinv : st.Inv) : (st.add_goal_to_plan cat i).2.Inv := by
  unfold PlanModel.add_goal_to_plan
  rcases hv : st.validate_goal_id cat i false with ⟨res, st1⟩
  have hp1 : st1.plan = st.plan := by
    have := validate_plan_eq st cat i false
    rw [hv] at this
    exact this
  have hm1 : ∀ k g, st.cache.lookup k = some g → st1.cache.lookup k = some g := by
    intro k g hk
    have := validate_cache_mono st cat i false hk
    rw [hv] at this
    exact this
  have hw1 : st1.CacheWF := by
    have := validate_cacheWF st cat i false hcat hinv.2.2
    rw [hv] at this
    exact this
  have hinv1 : st1.Inv := inv_of_steps hp1 hm1 hw1 hinv
  cases res with
  | error e => simpa using hinv1
  | ok gid =>
    simp only []
    split
    · exact hinv1
    · rename_i hmem
      rcases hr : st1.get_goal_from_cache_or_db cat gid with ⟨res2, st2⟩
      have hp2 : st2.plan = st1.plan := by
        have := resolve_plan_eq st1 cat gid
        rw [hr] at this
        exact this
      have hm2 : ∀ k g, st1.cache.lookup k = some g → st2.cache.lookup k = some g := by
        intro k g hk
        have := resolve_cache_mono st1 cat gid hk
        rw [hr] at this
        exact this
      have hw2 : st2.CacheWF := by
        have := resolve_cacheWF st1 cat gid hcat hw1
        rw [hr] at this
        exact this
      have hinv2 : st2.Inv := inv_of_steps hp2 hm2 hw2 hinv1
      cases res2 with
      | error e => simpa using hinv2
      | ok g =>
        have hgid : st2.cache.lookup gid = some g :=
          resolve_ok_cached st1 st2 cat gid g hr
        have hid : g.id = gid := hw2 _ _ hgid
        obtain ⟨hnd2, hcov2, hwf2⟩ := hinv2
        show PlanModel.Inv { plan := st2.plan ++ [g.id], cache := st2.cache }
        refine ⟨?_, ?_, hwf2⟩
        · simp only [hid, List.nodup_append, List.nodup_singleton, true_and]
          refine ⟨hnd2, ?_⟩
          intro a ha hb
          simp only [List.mem_singleton] at hb
          subst hb
          exact hmem (hp2 ▸ ha)
        · intro k hk
          simp only [hid, List.mem_append, List.mem_singleton] at hk
          rcases hk with hk | rfl
          · exact hcov2 k hk
          · exact ⟨g, hgid⟩

theorem remove_cache_mono (st : PlanModel) (cat : Catalog) (i : GoalIdInput)
    {k : Nat} {g : Goals} (h : st.cache.lookup k = some g) :
    (st.remove_goal_by_goal_id cat i).2.cache.lookup k = some g := by
  unfold PlanModel.remove_goal_by_goal_id
  rcases he : st.check_if_empty with e | u
  · simpa using h
  · simp only []
    rcases hv : st.validate_goal_id cat i true with ⟨res, st1⟩
    have hm : st1.cache.lookup k = some g := by
      have := validate_cache_mono st cat i true h
      rw [hv] at this
      exact this
    cases res with
    | error e => simpa using hm
    | ok gid =>
      simp only []
      split <;> simpa using hm

theorem remove_inv (st : PlanModel) (cat : Catalog) (i : GoalIdInput)
    (hcat : cat.WF) (hinv : st.Inv) : (st.remove_goal_by_goal_id cat i).2.Inv := by
  unfold PlanModel.remove_goal_by_goal_id
  rcases he : st.check_if_empty with e | u
  · simpa using hinv
  · simp only []
    rcases hv : st.validate_goal_id cat i true with ⟨res, st1⟩
    have hp1 : st1.plan = st.plan := by
      have := validate_plan_eq st cat i true
      rw [hv] at this
      exact this
    have hm1 : ∀ k g, st.cache.lookup k = some g → st1.cache.lookup k = some g := by
      intro k g hk
      have := validate_cache_mono st cat i true hk
      rw [hv] at this
      exact this
    have hw1 : st1.CacheWF := by
      have := validate_cacheWF st cat i true hcat hinv.2.2
      rw [hv] at this
      exact this
    have hinv1 : st1.Inv := inv_of_steps hp1 hm1 hw1 hinv
    cases res with
    | error e => simpa using hinv1
    | ok gid =>
      simp only []
      split
      · exact hinv1
      · obtain ⟨hnd1, hcov1, hwf1⟩ := hinv1
        refine ⟨hnd1.erase gid, ?_, hwf1⟩
        intro k hk
        exact hcov1 k (List.mem_of_mem_erase hk)

theorem clear_inv (st : PlanModel) (hinv : st.Inv) : st.clear_plan.2.Inv := by
  obtain ⟨_, _, hwf⟩ := hinv
  exact ⟨List.nodup_nil, fun k hk => absurd hk (List.not_mem_nil k), hwf⟩

theorem get_all_goals_cache_mono (st : PlanModel) (cat : Catalog)
    {k : Nat} {g : Goals} (h : st.cache.lookup k = some g) :
    (st.get_all_goals cat).2.cache.lookup k = some g := by
  unfold PlanModel.get_all_goals
  rcases he : st.check_if_empty with e | u
  · simpa using h
  · simpa using resolve_list_cache_mono cat st st.plan h

theorem get_all_goals_inv (st : PlanModel) (cat : Catalog)
    (hcat : cat.WF) (hinv : st.Inv) : (st.get_all_goals cat).2.Inv := by
  unfold PlanModel.get_all_goals
  rcases he : st.check_if_empty with e | u
  · simpa using hinv
  · simp only []
    exact inv_of_steps (resolve_list_plan_eq cat st st.plan)
      (fun k g hk => resolve_list_cache_mono cat st st.plan hk)
      (resolve_list_cacheWF cat st st.plan hcat hinv.2.2) hinv

theorem get_goal_by_id_cache_mono (st : PlanModel) (cat : Catalog) (i : GoalIdInput)
    {k : Nat} {g : Goals} (h : st.cache.lookup k = some g) :
    (st.get_goal_by_goal_id cat i).2.cache.lookup k = some g := by
  unfold PlanModel.get_goal_by_goal_id
  rcases he : st.check_if_empty with e | u
  · simpa using h
  · simp only []
    rcases hv : st.validate_goal_id cat i true with ⟨res, st1⟩
    have hm : st1.cache.lookup k = some g := by
      have := validate_cache_mono st cat i true h
      rw [hv] at this
      exact this
    cases res with
    | error e => simpa using hm
    | ok gid =>
      simp only []
      have := resolve_cache_mono st1 cat gid hm
      exact this

theorem get_goal_by_id_inv (st : PlanModel) (cat : Catalog) (i : GoalIdInput)
    (hcat : cat.WF) (hinv : st.Inv) : (st.get_goal_by_goal_id cat i).2.Inv := by
  unfold PlanModel.get_goal_by_goal_id
  rcases he : st.check_if_empty with e | u
  · simpa using hinv
  · simp only []
    rcases hv : st.validate_goal_id cat i true with ⟨res, st1⟩
    have hp1 : st1.plan = st.plan := by
      have := validate_plan_eq st cat i true
      rw [hv] at this
      exact this
    have hm1 : ∀ k g, st.cache.lookup k = some g → st1.cache.lookup k = some g := by
      intro k g hk
      have := validate_cache_mono st cat i true hk
      rw [hv] at this
      exact this
    have hw1 : st1.CacheWF := by
      have := validate_cacheWF st cat i true hcat hinv.2.2
      rw [hv] at this
      exact this
    have hinv1 : st1.Inv := inv_of_steps hp1 hm1 hw1 hinv
    cases res with
    | error e => simpa using hinv1
    | ok gid =>
      simp only []
      exact inv_of_steps (resolve_plan_eq st1 cat gid)
        (fun k g hk => resolve_cache_mono st1 cat gid hk)
        (resolve_cacheWF st1 cat gid hcat hw1) hinv1

theorem get_plan_progress_cache_mono (st : PlanModel) (cat : Catalog)
    {k : Nat} {g : Goals} (h : st.cache.lookup k = some g) :
    (st.get_plan_progress cat).2.cache.lookup k = some g := by
  unfold PlanModel.get_plan_progress
  rcases he : st.check_if_empty with e | u
  · simpa using h
  · simp only []
    rcases hl : resolve_list cat st st.plan with ⟨res, st1⟩
    have hm : st1.cache.lookup k = some g := by
      have := resolve_list_cache_mono cat st st.plan h
      rw [hl] at this
      exact this
    cases res <;> simpa using hm

theorem get_plan_progress_inv (st : PlanModel) (cat : Catalog)
    (hcat : cat.WF) (hinv : st.Inv) : (st.get_plan_progress cat).2.Inv := by
  unfold PlanModel.get_plan_progress
  rcases he : st.check_if_empty with e | u
  · simpa using hinv
  · simp only []
    rcases hl : resolve_list cat st st.plan with ⟨res, st1⟩
    have hinv1 : st1.Inv := by
      refine inv_of_steps ?_ ?_ ?_ hinv
      · have := resolve_list_plan_eq cat st st.plan
        rw [hl] at this
        exact this
      · intro k g hk
        have := resolve_list_cache_mono cat st st.plan hk
        rw [hl] at this
        exact this
      · have := resolve_list_cacheWF cat st st.plan hcat hinv.2.2
        rw [hl] at this
        exact this
    cases res <;> simpa using hinv1

theorem validate_inv (st : PlanModel) (cat : Catalog) (i : GoalIdInput) (b : Bool)
    (hcat : cat.WF) (hinv : st.Inv) : (st.validate_goal_id cat i b).2.Inv :=
  inv_of_steps (validate_plan_eq st cat i b)
    (fun _ _ hk => validate_cache_mono st cat i b hk)
    (validate_cacheWF st cat i b hcat hinv.2.2) hinv

theorem applyOp_cache_mono (st : PlanModel) (op : Op)
    {k : Nat} {g : Goals} (h : st.cache.lookup k = some g) :
    (applyOp st op).cache.lookup k = some g := by
  cases op with
  | addGoal cat i => exact add_cache_mono st cat i h
  | removeGoal cat i => exact remove_cache_mono st cat i h
  | clearPlan => exact h
  | getAllGoals cat => exact get_all_goals_cache_mono st cat h
  | getGoalById cat i => exact get_goal_by_id_cache_mono st cat i h
  | getPlanProgress cat => exact get_plan_progress_cache_mono st cat h
  | validateGoalId cat i b => exact validate_cache_mono st cat i b h

theorem applyOp_inv (st : PlanModel) (op : Op) (hwf : op.WF) (hinv : st.Inv) :
    (applyOp st op).Inv := by
  cases op with
  | addGoal cat i => exact add_inv st cat i hwf hinv
  | removeGoal cat i => exact remove_inv st cat i hwf hinv
  | clearPlan => exact clear_inv st hinv
  | getAllGoals cat => exact get_all_goals_inv st cat hwf hinv
  | getGoalById cat i => exact get_goal_by_id_inv st cat i hwf hinv
  | getPlanProgress cat => exact get_plan_progress_inv st cat hwf hinv
  | validateGoalId cat i b => exact validate_inv st cat i b hwf hinv

theorem runOps_inv (st : PlanModel) (ops : List Op)
    (hwf : ∀ op ∈ ops, op.WF) (hinv : st.Inv) : (runOps st ops).Inv := by
  induction ops generalizing st with
  | nil => simpa [runOps] using hinv
  | cons op ops ih =>
    unfold runOps
    exact ih (applyOp st op)
      (fun o ho => hwf o (List.mem_cons_of_mem op ho))
      (applyOp_inv st op (hwf op (List.mem_cons_self op ops)) hinv)

theorem init_inv : PlanModel.init.Inv :=
  ⟨List.nodup_nil, fun k hk => absurd hk (List.not_mem_nil k), fun k g hk => by cases hk⟩

/-! ### Further helpers -/

theorem cat0_WF : cat0.WF := by
  intro i g h
  unfold cat0 at h
  split at h
  · rename_i h1
    cases h
    simp [g1, h1]
  · split at h
    · rename_i h1 h2
      cases h
      simp [g2, h2]
    · cases h

theorem validate_false_eq (st : PlanModel) (cat : Catalog) (i : GoalIdInput) (n : Int)
    (hi : i.toIntCoe = some n) (hn : 0 ≤ n) :
    st.validate_goal_id cat i false =
      match st.get_goal_from_cache_or_db cat n.toNat with
      | (.ok _, st1) => (.ok n.toNat, st1)
      | (.error _, st1) => (.error .notFound, st1) := by
  unfold PlanModel.validate_goal_id
  simp [hi, not_lt.mpr hn]

theorem roundTo3_bounds (q : ℚ) (h0 : 0 ≤ q) (h1 : q ≤ 1) :
    0 ≤ roundTo3 q ∧ roundTo3 q ≤ 1 := by
  have hlow : (0 : ℤ) ≤ round (q * 1000) := by
    rw [round_eq]
    calc (0 : ℤ) = ⌊(0 : ℚ)⌋ := by simp
    _ ≤ ⌊q * 1000 + 1 / 2⌋ := Int.floor_le_floor (by linarith)
  have hhigh : round (q * 1000) ≤ 1000 := by
    rw [round_eq]
    calc ⌊q * 1000 + 1 / 2⌋ ≤ ⌊(2001 : ℚ) / 2⌋ := Int.floor_le_floor (by linarith)
    _ = 1000 := by norm_num
  constructor
  · unfold roundTo3
    apply div_nonneg _ (by norm_num)
    exact_mod_cast hlow
  · unfold roundTo3
    rw [div_le_one (by norm_num)]
    exact_mod_cast hhigh

/-! ### The claims -/

/-- C5: the cache-or-catalog resolver returns the cached goal on a hit
without consulting the catalog (its answer is identical under any two
catalogs and the state is unchanged); on a miss it queries the catalog,
stores the result in the cache keyed by the identifier, and returns it;
and when the catalog reports not-found it fails with the not-found error
and caches nothing. -/
theorem resolve_goal_spec (st : PlanModel) (cat cat2 : Catalog) (gid : Nat) :
    (∀ g, st.cache.lookup gid = some g →
      st.get_goal_from_cache_or_db cat gid = (.ok g, st) ∧
      st.get_goal_from_cache_or_db cat gid = st.get_goal_from_cache_or_db cat2 gid) ∧
    (st.cache.lookup gid = none → ∀ g, cat gid = some g →
      st.get_goal_from_cache_or_db cat gid =
        (.ok g, { st with cache := (gid, g) :: st.cache })) ∧
    (st.cache.lookup gid = none → cat gid = none →
      st.get_goal_from_cache_or_db cat gid = (.error .notFound, st)) := by
  refine ⟨?_, ?_, ?_⟩
  · intro g hg
    refine ⟨resolve_hit st cat gid g hg, ?_⟩
    rw [resolve_hit st cat gid g hg, resolve_hit st cat2 gid g hg]
  · intro hmiss g hcat
    simp [PlanModel.get_goal_from_cache_or_db, hmiss, hcat]
  · intro hmiss hcat
    simp [PlanModel.get_goal_from_cache_or_db, hmiss, hcat]

theorem resolve_goal_spec_witness :
    (st12.get_goal_from_cache_or_db cat0 1 = (.ok g1, st12) ∧
      st12.get_goal_from_cache_or_db cat0 1 = st12.get_goal_from_cache_or_db catD 1) ∧
    st1.get_goal_from_cache_or_db cat0 2 =
      (.ok g2, { plan := [1], cache := [(2, g2)] }) ∧
    st1.get_goal_from_cache_or_db catD 2 = (.error .notFound, st1) := by
  refine ⟨(resolve_goal_spec st12 cat0 catD 1).1 g1 rfl, ?_, ?_⟩
  · have h := (resolve_goal_spec st1 cat0 catD 2).2.1 rfl g2 rfl
    simpa [st1] using h
  · exact (resolve_goal_spec st1 catD cat0 2).2.2 rfl rfl

/-- C6: on an empty plan, `get_plan_progress`, `get_all_goals` and
`get_goal_by_goal_id` all fail with the empty-plan error, for every
argument value and every catalog, before any identifier validation or
catalog access (the result is independent of both and the state is
returned unchanged). -/
theorem empty_plan_errors (st : PlanModel) (cat : Catalog) (i : GoalIdInput)
    (h : st.plan = []) :
    st.get_plan_progress cat = (.error .emptyPlan, st) ∧
    st.get_all_goals cat = (.error .emptyPlan, st) ∧
    st.get_goal_by_goal_id cat i = (.error .emptyPlan, st) := by
  have he : st.check_if_empty = .error .emptyPlan := by
    simp [PlanModel.check_if_empty, h]
  refine ⟨?_, ?_, ?_⟩ <;>
    simp [PlanModel.get_plan_progress, PlanModel.get_all_goals,
      PlanModel.get_goal_by_goal_id, he]

theorem empty_plan_errors_witness :
    PlanModel.init.plan = [] ∧
    PlanModel.init.get_plan_progress cat0 = (.error .emptyPlan, PlanModel.init) ∧
    PlanModel.init.get_all_goals cat0 = (.error .emptyPlan, PlanModel.init) ∧
    PlanModel.init.get_goal_by_goal_id cat0 (.strVal "abc") =
      (.error .emptyPlan, PlanModel.init) :=
  ⟨rfl, empty_plan_errors PlanModel.init cat0 (.strVal "abc") rfl⟩

/-- C7: `validate_goal_id` fails with the invalid-id error exactly when
the input is not coercible to an integer or coerces to a negative
integer — for every plan/cache state, every catalog and either value of
`check_in_plan`; in particular validating `-1` or `"abc"` always fails
with the invalid-id error. -/
theorem validate_invalid_iff (st : PlanModel) (cat : Catalog) (i : GoalIdInput) (b : Bool) :
    ((st.validate_goal_id cat i b).1 = .error .invalidId ↔
      i.toIntCoe = none ∨ ∃ n : Int, i.toIntCoe = some n ∧ n < 0) ∧
    (st.validate_goal_id cat (.intVal (-1)) b).1 = .error .invalidId ∧
    (st.validate_goal_id cat (.strVal "abc") b).1 = .error .invalidId := by
  have key : ∀ j : GoalIdInput,
      ((st.validate_goal_id cat j b).1 = .error .invalidId ↔
        j.toIntCoe = none ∨ ∃ n : Int, j.toIntCoe = some n ∧ n < 0) := by
    intro j
    unfold PlanModel.validate_goal_id
    rcases hj : j.toIntCoe with _ | n
    · simp
    · simp only [hj]
      split
      · rename_i hneg
        simp [hneg]
      · rename_i hneg
        split
        · simp [hneg]
        · rcases hr : st.get_goal_from_cache_or_db cat n.toNat with ⟨res, st1⟩
          cases res <;> simp [hr, hneg]
  refine ⟨key i, ?_, ?_⟩
  · exact (key (.intVal (-1))).mpr (Or.inr ⟨-1, rfl, by norm_num⟩)
  · exact (key (.strVal "abc")).mpr (Or.inl (by decide))

theorem validate_invalid_iff_witness :
    (st12.validate_goal_id cat0 (.intVal (-1)) true).1 = .error .invalidId ∧
    (st12.validate_goal_id cat0 (.strVal "abc") true).1 = .error .invalidId :=
  ⟨(validate_invalid_iff st12 cat0 (.intVal (-1)) true).2.1,
    (validate_invalid_iff st12 cat0 (.strVal "abc") true).2.2⟩

/-- C9: `clear_plan` never raises — also on an already-empty plan — and
leaves the plan empty; a second consecutive call returns exactly the
same result and state as the first (idempotent no-op), in contrast to
the operations that raise the empty-plan error on an empty plan. -/
theorem clear_plan_idempotent (st : PlanModel) (cat : Catalog) :
    st.clear_plan.1 = .ok () ∧
    st.clear_plan.2.plan = [] ∧
    st.clear_plan.2.clear_plan = st.clear_plan ∧
    (st.clear_plan.2.get_all_goals cat).1 = .error .emptyPlan :=
  ⟨rfl, rfl, rfl, rfl⟩

/-- C10: `clear_plan` empties only the plan and returns the cache
literally unchanged, and no operation ever removes or overwrites a cache
entry: every entry present before an operation — including entries
populated inside operations that later failed — is still present, bound
to the same goal, afterwards; cache entries are only discarded with the
instance itself. -/
theorem cache_persistence (st : PlanModel) (op : Op) (k : Nat) (g : Goals)
    (h : st.cache.lookup k = some g) :
    st.clear_plan.2.cache = st.cache ∧
    (applyOp st op).cache.lookup k = some g :=
  ⟨rfl, applyOp_cache_mono st op h⟩

theorem cache_persistence_witness :
    (PlanModel.init.add_goal_to_plan cat0 (.intVal 1)).2.clear_plan.2.cache =
      (PlanModel.init.add_goal_to_plan cat0 (.intVal 1)).2.cache ∧
    (applyOp (PlanModel.init.add_goal_to_plan cat0 (.intVal 1)).2
      (Op.addGoal cat0 (.intVal 1))).cache.lookup 1 = some g1 :=
  cache_persistence (PlanModel.init.add_goal_to_plan cat0 (.intVal 1)).2
    (Op.addGoal cat0 (.intVal 1)) 1 g1 (by decide)

/-- C4: `validate_goal_id` checks its error conditions in a fixed
precedence order — integer-format error first (invalid-id, regardless of
plan and catalog), then plan membership (not-in-plan, only when
`check_in_plan`, regardless of catalog), then catalog existence — and
attempts a cache-or-catalog resolution even when `check_in_plan` is
false, so validating an id absent from both cache and catalog fails with
the not-found error regardless of the flag. -/
theorem validate_precedence (st : PlanModel) (cat : Catalog) (i : GoalIdInput) (b : Bool) :
    ((i.toIntCoe = none ∨ ∃ n : Int, i.toIntCoe = some n ∧ n < 0) →
      st.validate_goal_id cat i b = (.error .invalidId, st)) ∧
    (∀ n : Int, i.toIntCoe = some n → 0 ≤ n → b = true → n.toNat ∉ st.plan →
      st.validate_goal_id cat i b = (.error .notInPlan, st)) ∧
    (∀ n : Int, i.toIntCoe = some n → 0 ≤ n → (b = true → n.toNat ∈ st.plan) →
      st.cache.lookup n.toNat = none → cat n.toNat = none →
      st.validate_goal_id cat i b = (.error .notFound, st)) := by
  refine ⟨?_, ?_, ?_⟩
  · rintro (hn | ⟨n, hn, hneg⟩)
    · simp [PlanModel.validate_goal_id, hn]
    · simp [PlanModel.validate_goal_id, hn, hneg]
  · intro n hn hpos hb hmem
    subst hb
    simp [PlanModel.validate_goal_id, hn, not_lt.mpr hpos, hmem]
  · intro n hn hpos hmem hmiss hcat
    have hcond : ¬(b = true ∧ n.toNat ∉ st.plan) := by
      rintro ⟨hb, hni⟩
      exact hni (hmem hb)
    simp [PlanModel.validate_goal_id, hn, not_lt.mpr hpos, hcond,
      PlanModel.get_goal_from_cache_or_db, hmiss, hcat]

theorem validate_precedence_witness :
    st1.validate_goal_id catD (.intVal 2) false = (.error .notFound, st1) ∧
    st12.validate_goal_id cat0 (.intVal 5) true = (.error .notInPlan, st12) ∧
    st12.validate_goal_id cat0 (.strVal "xyz") true = (.error .invalidId, st12) := by
  refine ⟨?_, ?_, ?_⟩
  · exact (validate_precedence st1 catD (.intVal 2) false).2.2 2 rfl
      (by norm_num) (by decide) rfl rfl
  · exact (validate_precedence st12 cat0 (.intVal 5) true).2.1 5 rfl
      (by norm_num) rfl (by decide)
  · exact (validate_precedence st12 cat0 (.strVal "xyz") true).1 (Or.inl (by decide))

/-- C8: a successful `remove_goal_by_goal_id` removes exactly the first
occurrence of the coerced identifier from the ordered plan sequence
and preserves the relative order of all other elements (the plan splits
as `l1 ++ id :: l2` with `id ∉ l1` and becomes `l1 ++ l2`). -/
theorem remove_goal_spec (st st2 : PlanModel) (cat : Catalog) (i : GoalIdInput)
    (h : st.remove_goal_by_goal_id cat i = (.ok (), st2)) :
    ∃ n : Int, i.toIntCoe = some n ∧
      ∃ l1 l2, n.toNat ∉ l1 ∧ st.plan = l1 ++ n.toNat :: l2 ∧ st2.plan = l1 ++ l2 := by
  unfold PlanModel.remove_goal_by_goal_id at h
  rcases he : st.check_if_empty with e | u
  · rw [he] at h
    simp at h
  · rw [he] at h
    rcases hv : st.validate_goal_id cat i true with ⟨res, st1⟩
    simp only [hv] at h
    cases res with
    | error e => simp at h
    | ok gid =>
      obtain ⟨⟨n, hn, hpos, rfl⟩, hmemf, hplan, _⟩ :=
        validate_ok_spec st st1 cat i true gid hv
      have hin : n.toNat ∈ st1.plan := hplan ▸ hmemf rfl
      have h3 : (if n.toNat ∉ st1.plan then ((.error .notInPlan, st1) : Except PlanErr Unit × PlanModel)
          else (.ok (), { plan := st1.plan.erase n.toNat, cache := st1.cache })) =
          (.ok (), st2) := h
      rw [if_neg (not_not_intro hin)] at h3
      simp only [Prod.mk.injEq] at h3
      obtain ⟨_, h2⟩ := h3
      obtain ⟨l1, l2, hnl, hsplit, herase⟩ := List.exists_erase_eq hin
      refine ⟨n, hn, l1, l2, hnl, ?_, ?_⟩
      · rw [← hplan]
        exact hsplit
      · rw [← h2]
        exact herase

theorem remove_goal_spec_witness :
    (∃ n : Int, (GoalIdInput.intVal 1).toIntCoe = some n ∧
      ∃ l1 l2, n.toNat ∉ l1 ∧ st12.plan = l1 ++ n.toNat :: l2 ∧
        (st12.remove_goal_by_goal_id cat0 (.intVal 1)).2.plan = l1 ++ l2) ∧
    (st12.remove_goal_by_goal_id cat0 (.intVal 1)).2.plan = [2] ∧
    ((st12.remove_goal_by_goal_id cat0 (.intVal 1)).2.remove_goal_by_goal_id
      cat0 (.intVal 1)).1 = .error .notInPlan :=
  ⟨remove_goal_spec st12 (st12.remove_goal_by_goal_id cat0 (.intVal 1)).2
    cat0 (.intVal 1) rfl, rfl, rfl⟩

/-- C3: adding a valid identifier that is not yet in the plan and
resolves to a goal in the catalog succeeds (returns unit, raises no
error), appends exactly that identifier to the end of the ordered plan
sequence, and increases `get_plan_length` by exactly 1. -/
theorem add_goal_appends (st : PlanModel) (cat : Catalog) (i : GoalIdInput) (n : Int)
    (g : Goals) (hcat : cat.WF) (hwfc : st.CacheWF)
    (hi : i.toIntCoe = some n) (hn : 0 ≤ n)
    (hnot : n.toNat ∉ st.plan) (hg : cat n.toNat = some g) :
    (st.add_goal_to_plan cat i).1 = .ok () ∧
    (st.add_goal_to_plan cat i).2.plan = st.plan ++ [n.toNat] ∧
    (st.add_goal_to_plan cat i).2.get_plan_length = st.get_plan_length + 1 := by
  have hv := validate_false_eq st cat i n hi hn
  unfold PlanModel.add_goal_to_plan
  rw [hv]
  rcases hc : st.cache.lookup n.toNat with _ | gc
  · have hr : st.get_goal_from_cache_or_db cat n.toNat =
        (.ok g, { st with cache := (n.toNat, g) :: st.cache }) := by
      simp [PlanModel.get_goal_from_cache_or_db, hc, hg]
    rw [hr]
    simp only []
    rw [if_neg hnot]
    rw [resolve_hit { st with cache := (n.toNat, g) :: st.cache } cat n.toNat g
      (lookup_cons_self ..)]
    have hid : g.id = n.toNat := hcat _ _ hg
    simp [hid, PlanModel.get_plan_length]
  · have hid : gc.id = n.toNat := hwfc _ _ hc
    have hr : st.get_goal_from_cache_or_db cat n.toNat = (.ok gc, st) :=
      resolve_hit st cat n.toNat gc hc
    rw [hr]
    simp only []
    rw [if_neg hnot]
    rw [hr]
    simp [hid, PlanModel.get_plan_length]

theorem add_goal_appends_witness :
    (PlanModel.init.add_goal_to_plan cat0 (.intVal 1)).1 = .ok () ∧
    (PlanModel.init.add_goal_to_plan cat0 (.intVal 1)).2.plan =
      PlanModel.init.plan ++ [(1 : Int).toNat] ∧
    (PlanModel.init.add_goal_to_plan cat0 (.intVal 1)).2.get_plan_length =
      PlanModel.init.get_plan_length + 1 :=
  add_goal_appends PlanModel.init cat0 (.intVal 1) 1 g1 cat0_WF init_inv.2.2
    rfl (by norm_num) (by decide) (by decide)

/-- C2: starting from a fresh instance, after any sequence of operations
(each run against a well-formed catalog) the plan never contains the
same identifier twice; and an `add_goal_to_plan` of an identifier
already present always fails with the duplicate-entry error and leaves
the state — in particular the plan sequence — unchanged. -/
theorem plan_uniqueness (ops : List Op) (hwf : ∀ op ∈ ops, op.WF) :
    (runOps PlanModel.init ops).plan.Nodup ∧
    ∀ (cat : Catalog) (i : GoalIdInput) (n : Int),
      i.toIntCoe = some n → 0 ≤ n → n.toNat ∈ (runOps PlanModel.init ops).plan →
      (runOps PlanModel.init ops).add_goal_to_plan cat i =
        (.error .duplicateEntry, runOps PlanModel.init ops) := by
  have hinv := runOps_inv PlanModel.init ops hwf init_inv
  refine ⟨hinv.1, ?_⟩
  intro cat i n hi hn hmem
  obtain ⟨g, hg⟩ := hinv.2.1 _ hmem
  have hres := resolve_hit (runOps PlanModel.init ops) cat n.toNat g hg
  have hv := validate_false_eq (runOps PlanModel.init ops) cat i n hi hn
  rw [hres] at hv
  unfold PlanModel.add_goal_to_plan
  rw [hv]
  simp only []
  rw [if_pos hmem]

theorem plan_uniqueness_witness :
    (runOps PlanModel.init [Op.addGoal cat0 (.intVal 1)]).plan.Nodup ∧
    (runOps PlanModel.init [Op.addGoal cat0 (.intVal 1)]).add_goal_to_plan
      cat0 (.intVal 1) =
      (.error .duplicateEntry, runOps PlanModel.init [Op.addGoal cat0 (.intVal 1)]) := by
  have hwf : ∀ op ∈ [Op.addGoal cat0 (.intVal 1)], op.WF := by
    intro op hop
    simp only [List.mem_singleton] at hop
    subst hop
    exact cat0_WF
  exact ⟨(plan_uniqueness [Op.addGoal cat0 (.intVal 1)] hwf).1,
    (plan_uniqueness [Op.addGoal cat0 (.intVal 1)] hwf).2 cat0 (.intVal 1) 1
      rfl (by norm_num) (by decide)⟩

/-- C1: `get_plan_progress` (modelled from the spec — the method is
absent from the source tree, only its test exists) on a non-empty plan
whose identifiers all resolve fetches one goal per plan entry, and
returns the number of goals with `completed = true` divided by the total
count, rounded to 3 decimal digits, a fraction in [0, 1]; on a two-goal
plan with exactly one completed goal it returns 0.5. -/
theorem get_plan_progress_spec (st st1 : PlanModel) (cat : Catalog) (gs : List Goals)
    (hne : st.plan ≠ [])
    (hres : resolve_list cat st st.plan = (.ok gs, st1)) :
    gs.length = st.plan.length ∧
    st.get_plan_progress cat =
      (.ok (roundTo3 (((gs.filter fun g => g.completed).length : ℚ) / (gs.length : ℚ))),
        st1) ∧
    0 ≤ roundTo3 (((gs.filter fun g => g.completed).length : ℚ) / (gs.length : ℚ)) ∧
    roundTo3 (((gs.filter fun g => g.completed).length : ℚ) / (gs.length : ℚ)) ≤ 1 := by
  have hlen := resolve_list_ok_length cat st st1 st.plan gs hres
  have hlpos : 0 < gs.length := by
    rw [hlen]
    exact List.length_pos.mpr hne
  have hq0 : (0 : ℚ) ≤ ((gs.filter fun g => g.completed).length : ℚ) / (gs.length : ℚ) := by
    positivity
  have hq1 : ((gs.filter fun g => g.completed).length : ℚ) / (gs.length : ℚ) ≤ 1 := by
    rw [div_le_one (by exact_mod_cast hlpos)]
    exact_mod_cast List.length_filter_le _ _
  obtain ⟨hr0, hr1⟩ := roundTo3_bounds _ hq0 hq1
  refine ⟨hlen, ?_, hr0, hr1⟩
  have he : st.check_if_empty = .ok () := by
    simp [PlanModel.check_if_empty, hne]
  unfold PlanModel.get_plan_progress
  rw [he]
  simp only []
  rw [hres]

theorem get_plan_progress_spec_witness :
    st12.plan ≠ [] ∧
    st12.get_plan_progress cat0 = (.ok ((1 : ℚ) / 2), st12) := by
  have h := get_plan_progress_spec st12 st12 cat0 [g1, g2] (by decide) rfl
  refine ⟨by decide, ?_⟩
  rw [h.2.1]
  have hval : roundTo3 (((([g1, g2] : List Goals).filter fun g => g.completed).length : ℚ) /
      (([g1, g2] : List Goals).length : ℚ)) = 1 / 2 := by
    norm_num [g1, g2, roundTo3, round_eq]
  rw [hval]

end CoachPeter
